import Mathlib

/-!
Shallow embedding of `src/parser/shared/metrics/apl.ts` (the APL rule
evaluation engine): the condition abstraction, ability-availability
tracking, first-match rule selection and the evaluating fold, together
with theorems settling the specification claims about them.

The event and ability types come from `parser/core/Events` (outside the
embedded file); only the fields the engine reads are modelled: the event
kind, the ability `guid`, the cast's `sourceID`, and the
`isAvailable` flag of an `UpdateSpellUsable` event.  Condition state is
`any` in the source; here the development is polymorphic in a state type
`σ`, and `Option σ` models a possibly-`undefined` JavaScript value: an
absent key of the condition-state object reads as `none`.
-/

namespace AplMetric

/-- An ability reference as carried by events; the engine only reads the
numeric `guid`. -/
structure Ability where
  guid : Nat
deriving DecidableEq

/-- A spell definition; the engine only reads the numeric `id`. -/
structure Spell where
  id : Nat
deriving DecidableEq

/-- The event kinds the engine distinguishes: `Cast` (with its source
actor), `ApplyBuff`, `RemoveBuff`, `UpdateSpellUsable` (with its
availability flag), and every other event kind collapsed to `other`. -/
inductive AnyEvent where
  | cast (sourceID : Nat) (ability : Ability)
  | applybuff (ability : Ability)
  | removebuff (ability : Ability)
  | updatespellusable (ability : Ability) (isAvailable : Bool)
  | other
deriving DecidableEq

/-- The availability snapshot stored per spell id: the latest
`UpdateSpellUsable` event, of which the engine reads `isAvailable`. -/
structure UpdateSpellUsableEvent where
  ability : Ability
  isAvailable : Bool
deriving DecidableEq

/-- The `Info` argument of a metric; the engine destructures `playerId`. -/
structure Info where
  playerId : Nat
deriving DecidableEq

/-- `Condition<T>`: key, initial state, per-event state transition, and
validation at decision time.  `update` and `validate` receive `Option σ`
because the source stores states in an untyped object in which a lookup
may yield `undefined`. -/
structure Condition (σ : Type) where
  key : String
  init : σ
  update : Option σ → AnyEvent → Option σ
  validate : Option σ → AnyEvent → Bool

/-- `Rule`: a bare spell, or a spell guarded by a condition
(`ConditionalRule`). -/
inductive Rule (σ : Type) where
  | simple (spell : Spell)
  | conditional (spell : Spell) (condition : Condition σ)

/-- `const spell = (rule) => 'spell' in rule ? rule.spell : rule`. -/
def spell {σ : Type} : Rule σ → Spell
  | .simple s => s
  | .conditional s _ => s

/-- `Apl`: registered conditions and the priority-ordered rule list.
An absent `conditions` field behaves as the empty list. -/
structure Apl (σ : Type) where
  conditions : List (Condition σ)
  rules : List (Rule σ)

/-- `Violation`: the attempted ability, the expected spell, the rule. -/
structure Violation (σ : Type) where
  actualCast : Ability
  expectedCast : Spell
  rule : Rule σ

/-- `ConditionState`: per-key condition state; `none` is an absent key. -/
def ConditionState (σ : Type) := String → Option σ

/-- `AbilityState`: latest availability snapshot per spell id. -/
def AbilityState := Nat → Option UpdateSpellUsableEvent

/-- The fold accumulator `CheckState`. -/
structure CheckState (σ : Type) where
  successes : List (Rule σ)
  violations : List (Violation σ)
  conditionState : ConditionState σ
  abilityState : AbilityState

/-- `CheckResult = Pick<CheckState, 'successes' | 'violations'>`. -/
structure CheckResult (σ : Type) where
  successes : List (Rule σ)
  violations : List (Violation σ)

/-- `buffPresent(spell, target)`: boolean condition keyed on the spell id
and target; set by a matching `ApplyBuff`, cleared by a matching
`RemoveBuff`; `validate` returns the state (an `undefined` state reads as
false in the boolean position where the engine uses it). -/
def buffPresent (spell : Spell) (target : Nat) : Condition Bool where
  key := "buffPresent-" ++ toString spell.id ++ "-" ++ toString target
  init := false
  update := fun state event =>
    match event with
    | .applybuff ab => if ab.guid = spell.id then some true else state
    | .removebuff ab => if ab.guid = spell.id then some false else state
    | _ => state
  validate := fun state _ => state.getD false

/-- Store a value under a key in a condition-state object. -/
def setKey {σ : Type} (st : ConditionState σ) (k : String) (v : Option σ) :
    ConditionState σ :=
  fun k' => if k' = k then v else st k'

/-- `initState`: each registered condition's key maps to its `init()`. -/
def initState {σ : Type} (apl : Apl σ) : ConditionState σ :=
  apl.conditions.foldl (fun state cnd => setKey state cnd.key (some cnd.init))
    (fun _ => none)

/-- `updateState`: rebuild the state object, giving each registered
condition `update` of its OLD state and the event. -/
def updateState {σ : Type} (apl : Apl σ) (oldState : ConditionState σ)
    (event : AnyEvent) : ConditionState σ :=
  apl.conditions.foldl
    (fun state cnd => setKey state cnd.key (cnd.update (oldState cnd.key) event))
    (fun _ => none)

/-- First half of `ruleApplies`: the governed spell's snapshot is absent
(`=== undefined`) or marked available. -/
def spellAvailable {σ : Type} (rule : Rule σ) (result : CheckState σ) : Bool :=
  match result.abilityState (spell rule).id with
  | none => true
  | some u => u.isAvailable

/-- Second half of `ruleApplies`: unconditional, or the condition
validates against the looked-up state and the event. -/
def conditionHolds {σ : Type} (rule : Rule σ) (result : CheckState σ)
    (event : AnyEvent) : Bool :=
  match rule with
  | .simple _ => true
  | .conditional _ cnd => cnd.validate (result.conditionState cnd.key) event

/-- `ruleApplies`: both checks. -/
def ruleApplies {σ : Type} (rule : Rule σ) (result : CheckState σ)
    (event : AnyEvent) : Bool :=
  spellAvailable rule result && conditionHolds rule result event

/-- The `for` loop of `applicableRule`: first rule that applies. -/
def firstApplicable {σ : Type} (rules : List (Rule σ)) (result : CheckState σ)
    (event : AnyEvent) : Option (Rule σ) :=
  match rules with
  | [] => none
  | r :: rs =>
    if ruleApplies r result event then some r
    else firstApplicable rs result event

/-- `applicableRule`: scan `apl.rules` in order. -/
def applicableRule {σ : Type} (apl : Apl σ) (result : CheckState σ)
    (event : AnyEvent) : Option (Rule σ) :=
  firstApplicable apl.rules result event

/-- `updateAbilities`: an `UpdateSpellUsable` event overwrites the
snapshot of its ability's guid; every other event is a no-op. -/
def updateAbilities (state : AbilityState) (event : AnyEvent) : AbilityState :=
  match event with
  | .updatespellusable ab avail => fun g => if g = ab.guid then some ⟨ab, avail⟩ else state g
  | _ => state

/-- The ids of the governed spells, `apl.rules.map(rule => spell(rule).id)`
(held in a `Set` by the source; only membership is observed). -/
def applicableSpells {σ : Type} (apl : Apl σ) : List Nat :=
  apl.rules.map (fun r => (spell r).id)

/-- Step 1 of the fold body: for a governed cast, look up the applicable
rule and append a success or a violation; otherwise leave the
accumulator unchanged.  Reads the accumulator as of BEFORE the event's
state update. -/
def castDecision {σ : Type} (apl : Apl σ) (result : CheckState σ)
    (event : AnyEvent) : CheckState σ :=
  match event with
  | .cast _ ab =>
    if ab.guid ∈ applicableSpells apl then
      match applicableRule apl result event with
      | some rule =>
        if (spell rule).id = ab.guid then
          { result with successes := result.successes ++ [rule] }
        else
          { result with violations := result.violations ++ [⟨ab, spell rule, rule⟩] }
      | none => result
    else result
  | _ => result

/-- The whole fold body: decision first, then advance `abilityState` and
`conditionState` with the current event. -/
def aplStep {σ : Type} (apl : Apl σ) (result : CheckState σ)
    (event : AnyEvent) : CheckState σ :=
  let d := castDecision apl result event
  { d with
    abilityState := updateAbilities d.abilityState event
    conditionState := updateState apl d.conditionState event }

/-- The fold's initial accumulator. -/
def initCheck {σ : Type} (apl : Apl σ) : CheckState σ :=
  { successes := []
    violations := []
    conditionState := initState apl
    abilityState := fun _ => none }

/-- `events.reduce(...)` with the initial accumulator. -/
def checkFold {σ : Type} (apl : Apl σ) (events : List AnyEvent) : CheckState σ :=
  events.foldl (aplStep apl) (initCheck apl)

/-- `aplCheck(apl)(events, { playerId })`.  `playerId` is destructured by
the source but never read; the fold evaluates every `Cast` event whose
ability id is governed, whatever its `sourceID`. -/
def aplCheck {σ : Type} (apl : Apl σ) (events : List AnyEvent) (info : Info) :
    CheckResult σ :=
  ⟨(checkFold apl events).successes, (checkFold apl events).violations⟩

theorem castDecision_condState {σ : Type} (apl : Apl σ) (s : CheckState σ)
    (e : AnyEvent) : (castDecision apl s e).conditionState = s.conditionState := by
  unfold castDecision
  cases e <;> dsimp only [] <;> try rfl
  split
  · split
    · split <;> rfl
    · rfl
  · rfl

theorem castDecision_abilityState {σ : Type} (apl : Apl σ) (s : CheckState σ)
    (e : AnyEvent) : (castDecision apl s e).abilityState = s.abilityState := by
  unfold castDecision
  cases e <;> dsimp only [] <;> try rfl
  split
  · split
    · split <;> rfl
    · rfl
  · rfl

theorem checkFold_append_one {σ : Type} (apl : Apl σ) (es : List AnyEvent)
    (e : AnyEvent) :
    checkFold apl (es ++ [e]) = aplStep apl (checkFold apl es) e := by
  unfold checkFold
  rw [List.foldl_append]
  rfl

theorem firstApplicable_eq_find {σ : Type} (rules : List (Rule σ))
    (s : CheckState σ) (e : AnyEvent) :
    firstApplicable rules s e = rules.find? (fun r => ruleApplies r s e) := by
  induction rules with
  | nil => rfl
  | cons r rs ih =>
    unfold firstApplicable
    rw [List.find?_cons]
    by_cases h : ruleApplies r s e
    · simp [h]
    · simp only [Bool.not_eq_true] at h
      simp [h, ih]

/-- C1: the engine does not restrict evaluation to the actor named by
`info.playerId`: with `playerId = 1`, a cast of the governed spell 1 by
the actor with `sourceID = 2` is still evaluated against the APL and
recorded (here as a success), even though `2 ≠ 1`. -/
theorem foreign_cast_recorded :
    (aplCheck (⟨[], [.simple ⟨1⟩]⟩ : Apl Bool) [.cast 2 ⟨1⟩] ⟨1⟩).successes
      = [.simple ⟨1⟩] ∧ (2 : Nat) ≠ 1 :=
  ⟨rfl, by decide⟩

/-- C2: `applicableRule` is the first-match scan of `apl.rules` in
declaration order (it agrees with `List.find?` of `ruleApplies`), and
concretely, for an APL with always-qualifying rules for spells 1 and 2
and a cast of spell 2, the result is one violation expecting spell 1. -/
theorem applicableRule_first_match :
    (∀ (σ : Type) (apl : Apl σ) (s : CheckState σ) (e : AnyEvent),
        applicableRule apl s e = apl.rules.find? (fun r => ruleApplies r s e))
    ∧ (aplCheck (⟨[], [.simple ⟨1⟩, .simple ⟨2⟩]⟩ : Apl Bool)
          [.cast 1 ⟨2⟩] ⟨1⟩).violations = [⟨⟨2⟩, ⟨1⟩, .simple ⟨1⟩⟩]
    ∧ (aplCheck (⟨[], [.simple ⟨1⟩, .simple ⟨2⟩]⟩ : Apl Bool)
          [.cast 1 ⟨2⟩] ⟨1⟩).successes = [] :=
  ⟨fun _ _ s e => firstApplicable_eq_find _ s e, rfl, rfl⟩

/-- C7: reference behavior of `buffPresent`: initial state `false`;
`update` sets the state on an `ApplyBuff` of the spell's id, clears it on
a `RemoveBuff` of the spell's id, and leaves it unchanged on every other
event; `validate` returns the current boolean state whatever the
triggering event is. -/
theorem buffPresent_reference (sp : Spell) (t : Nat) :
    (buffPresent sp t).init = false
    ∧ (∀ (st : Option Bool) (ab : Ability),
        (buffPresent sp t).update st (.applybuff ab)
          = if ab.guid = sp.id then some true else st)
    ∧ (∀ (st : Option Bool) (ab : Ability),
        (buffPresent sp t).update st (.removebuff ab)
          = if ab.guid = sp.id then some false else st)
    ∧ (∀ (st : Option Bool) (src : Nat) (ab : Ability),
        (buffPresent sp t).update st (.cast src ab) = st)
    ∧ (∀ (st : Option Bool) (ab : Ability) (av : Bool),
        (buffPresent sp t).update st (.updatespellusable ab av) = st)
    ∧ (∀ st : Option Bool, (buffPresent sp t).update st .other = st)
    ∧ (∀ (b : Bool) (e : AnyEvent), (buffPresent sp t).validate (some b) e = b) :=
  ⟨rfl, fun _ _ => rfl, fun _ _ => rfl, fun _ _ _ => rfl, fun _ _ _ => rfl,
    fun _ => rfl, fun _ _ => rfl⟩

/-- C10: the `target` argument of `buffPresent` only enters the key
string: for any two targets, the initial state, the `update` function and
the `validate` function coincide pointwise. -/
theorem buffPresent_target_independent (sp : Spell) (t1 t2 : Nat) :
    (buffPresent sp t1).init = (buffPresent sp t2).init
    ∧ (∀ (st : Option Bool) (e : AnyEvent),
        (buffPresent sp t1).update st e = (buffPresent sp t2).update st e)
    ∧ (∀ (st : Option Bool) (e : AnyEvent),
        (buffPresent sp t1).validate st e = (buffPresent sp t2).validate st e) :=
  ⟨rfl, fun _ _ => rfl, fun _ _ => rfl⟩

/-- C4: at a governed cast for which `applicableRule` found a rule, the
step appends exactly that rule to `successes` when its spell id equals
the attempted ability's guid, and otherwise appends exactly the violation
`{rule, expectedCast := spell rule, actualCast := ability}` to
`violations`; the other list is untouched, and the record goes to the end
of its list (stream order). -/
theorem governed_cast_with_rule {σ : Type} (apl : Apl σ) (s : CheckState σ)
    (src : Nat) (ab : Ability) (r : Rule σ)
    (hmem : ab.guid ∈ applicableSpells apl)
    (hrule : applicableRule apl s (.cast src ab) = some r) :
    ((spell r).id = ab.guid →
      (aplStep apl s (.cast src ab)).successes = s.successes ++ [r]
      ∧ (aplStep apl s (.cast src ab)).violations = s.violations)
    ∧ ((spell r).id ≠ ab.guid →
      (aplStep apl s (.cast src ab)).successes = s.successes
      ∧ (aplStep apl s (.cast src ab)).violations
          = s.violations ++ [⟨ab, spell r, r⟩]) := by
  dsimp only [aplStep, castDecision]
  rw [if_pos hmem, hrule]
  dsimp only
  constructor
  · intro hid
    rw [if_pos hid]
    exact ⟨rfl, rfl⟩
  · intro hid
    rw [if_neg hid]
    exact ⟨rfl, rfl⟩

theorem governed_cast_with_rule_witness :
    ((1 : Nat) ∈ applicableSpells (⟨[], [.simple ⟨1⟩]⟩ : Apl Bool))
    ∧ applicableRule (⟨[], [.simple ⟨1⟩]⟩ : Apl Bool)
        (initCheck ⟨[], [.simple ⟨1⟩]⟩) (.cast 1 ⟨1⟩) = some (.simple ⟨1⟩)
    ∧ (aplStep (⟨[], [.simple ⟨1⟩]⟩ : Apl Bool)
        (initCheck ⟨[], [.simple ⟨1⟩]⟩) (.cast 1 ⟨1⟩)).successes
        = (initCheck (⟨[], [.simple ⟨1⟩]⟩ : Apl Bool)).successes ++ [.simple ⟨1⟩] :=
  ⟨by decide, rfl,
    ((governed_cast_with_rule (⟨[], [.simple ⟨1⟩]⟩ : Apl Bool)
      (initCheck ⟨[], [.simple ⟨1⟩]⟩) 1 ⟨1⟩ (.simple ⟨1⟩)
      (by decide) rfl).1 rfl).1⟩

/-- C5: at a governed cast for which no rule qualifies, the step appends
nothing: `successes` and `violations` are exactly those of the incoming
accumulator. -/
theorem no_qualifying_rule_silent {σ : Type} (apl : Apl σ) (s : CheckState σ)
    (src : Nat) (ab : Ability)
    (hmem : ab.guid ∈ applicableSpells apl)
    (hnone : applicableRule apl s (.cast src ab) = none) :
    (aplStep apl s (.cast src ab)).successes = s.successes
    ∧ (aplStep apl s (.cast src ab)).violations = s.violations := by
  dsimp only [aplStep, castDecision]
  rw [if_pos hmem, hnone]
  dsimp only
  exact ⟨rfl, rfl⟩

theorem no_qualifying_rule_silent_witness :
    ((1 : Nat) ∈ applicableSpells (⟨[], [.simple ⟨1⟩]⟩ : Apl Bool))
    ∧ applicableRule (⟨[], [.simple ⟨1⟩]⟩ : Apl Bool)
        (checkFold ⟨[], [.simple ⟨1⟩]⟩ [.updatespellusable ⟨1⟩ false])
        (.cast 1 ⟨1⟩) = none
    ∧ (aplStep (⟨[], [.simple ⟨1⟩]⟩ : Apl Bool)
        (checkFold ⟨[], [.simple ⟨1⟩]⟩ [.updatespellusable ⟨1⟩ false])
        (.cast 1 ⟨1⟩)).successes
        = (checkFold (⟨[], [.simple ⟨1⟩]⟩ : Apl Bool)
            [.updatespellusable ⟨1⟩ false]).successes
    ∧ (aplStep (⟨[], [.simple ⟨1⟩]⟩ : Apl Bool)
        (checkFold ⟨[], [.simple ⟨1⟩]⟩ [.updatespellusable ⟨1⟩ false])
        (.cast 1 ⟨1⟩)).violations
        = (checkFold (⟨[], [.simple ⟨1⟩]⟩ : Apl Bool)
            [.updatespellusable ⟨1⟩ false]).violations :=
  ⟨by decide, rfl,
    (no_qualifying_rule_silent (⟨[], [.simple ⟨1⟩]⟩ : Apl Bool)
      (checkFold ⟨[], [.simple ⟨1⟩]⟩ [.updatespellusable ⟨1⟩ false])
      1 ⟨1⟩ (by decide) rfl).1,
    (no_qualifying_rule_silent (⟨[], [.simple ⟨1⟩]⟩ : Apl Bool)
      (checkFold ⟨[], [.simple ⟨1⟩]⟩ [.updatespellusable ⟨1⟩ false])
      1 ⟨1⟩ (by decide) rfl).2⟩

/-- C6: a rule whose governed spell id has no availability snapshot
passes the availability half of `ruleApplies`: `spellAvailable` is
`true`, so `ruleApplies` reduces to the condition half alone. -/
theorem missing_snapshot_available {σ : Type} (r : Rule σ) (s : CheckState σ)
    (e : AnyEvent) (h : s.abilityState (spell r).id = none) :
    spellAvailable r s = true
    ∧ ruleApplies r s e = conditionHolds r s e := by
  have hav : spellAvailable r s = true := by
    unfold spellAvailable
    rw [h]
  refine ⟨hav, ?_⟩
  unfold ruleApplies
  rw [hav, Bool.true_and]

theorem missing_snapshot_available_witness :
    (initCheck (⟨[], []⟩ : Apl Bool)).abilityState
        (spell (Rule.simple ⟨5⟩ : Rule Bool)).id = none
    ∧ spellAvailable (Rule.simple ⟨5⟩ : Rule Bool)
        (initCheck ⟨[], []⟩) = true
    ∧ ruleApplies (Rule.simple ⟨5⟩ : Rule Bool) (initCheck ⟨[], []⟩) .other
        = conditionHolds (Rule.simple ⟨5⟩ : Rule Bool)
            (initCheck ⟨[], []⟩) .other :=
  ⟨rfl,
    (missing_snapshot_available (Rule.simple ⟨5⟩ : Rule Bool)
      (initCheck ⟨[], []⟩) .other rfl).1,
    (missing_snapshot_available (Rule.simple ⟨5⟩ : Rule Bool)
      (initCheck ⟨[], []⟩) .other rfl).2⟩

/-- C9: `aplCheck` is a pure function of its three inputs: equal APLs,
equal event streams and equal info records yield equal `CheckResult`s;
the embedding is computable and effect-free, so no state outside the
arguments can influence the output. -/
theorem aplCheck_deterministic {σ : Type} (apl1 apl2 : Apl σ)
    (es1 es2 : List AnyEvent) (i1 i2 : Info)
    (ha : apl1 = apl2) (he : es1 = es2) (hi : i1 = i2) :
    aplCheck apl1 es1 i1 = aplCheck apl2 es2 i2 := by
  subst ha
  subst he
  subst hi
  rfl

theorem aplCheck_deterministic_witness :
    (⟨[], [.simple ⟨1⟩]⟩ : Apl Bool) = ⟨[], [.simple ⟨1⟩]⟩
    ∧ [AnyEvent.cast 1 ⟨1⟩] = [AnyEvent.cast 1 ⟨1⟩]
    ∧ (⟨1⟩ : Info) = ⟨1⟩
    ∧ aplCheck (⟨[], [.simple ⟨1⟩]⟩ : Apl Bool) [.cast 1 ⟨1⟩] ⟨1⟩
        = aplCheck (⟨[], [.simple ⟨1⟩]⟩ : Apl Bool) [.cast 1 ⟨1⟩] ⟨1⟩ :=
  ⟨rfl, rfl, rfl,
    aplCheck_deterministic (⟨[], [.simple ⟨1⟩]⟩ : Apl Bool)
      (⟨[], [.simple ⟨1⟩]⟩ : Apl Bool) [.cast 1 ⟨1⟩] [.cast 1 ⟨1⟩]
      ⟨1⟩ ⟨1⟩ rfl rfl rfl⟩

theorem aplStep_successes {σ : Type} (apl : Apl σ) (s : CheckState σ)
    (e : AnyEvent) :
    (aplStep apl s e).successes = (castDecision apl s e).successes := rfl

theorem aplStep_violations {σ : Type} (apl : Apl σ) (s : CheckState σ)
    (e : AnyEvent) :
    (aplStep apl s e).violations = (castDecision apl s e).violations := rfl

theorem aplStep_abilityState {σ : Type} (apl : Apl σ) (s : CheckState σ)
    (e : AnyEvent) :
    (aplStep apl s e).abilityState = updateAbilities s.abilityState e := by
  have h : (aplStep apl s e).abilityState
      = updateAbilities (castDecision apl s e).abilityState e := rfl
  rw [h, castDecision_abilityState]

theorem aplStep_condState {σ : Type} (apl : Apl σ) (s : CheckState σ)
    (e : AnyEvent) :
    (aplStep apl s e).conditionState = updateState apl s.conditionState e := by
  have h : (aplStep apl s e).conditionState
      = updateState apl (castDecision apl s e).conditionState e := rfl
  rw [h, castDecision_condState]

/-- A condition whose `update` is triggered by a cast of spell 1: the
state in which the hazard of C3 is observable. -/
def selfCond : Condition Bool where
  key := "selfcast"
  init := false
  update := fun st ev =>
    match ev with
    | .cast _ ab => if ab.guid = 1 then some true else st
    | _ => st
  validate := fun st _ => st.getD false

/-- An APL whose single rule for spell 1 is guarded by `selfCond`. -/
def selfApl : Apl Bool := ⟨[selfCond], [.conditional ⟨1⟩ selfCond]⟩

/-- C3: the decision at each event reads only the strict-prefix state:
extending the stream by one event appends exactly `castDecision` of the
prefix's accumulator to the result lists, and only afterwards advances
`abilityState` and `conditionState` by the current event.  Concretely,
for a rule on spell 1 guarded by a condition that its own cast would set,
the lone stream `[cast of spell 1]` yields no success and no violation
(decision-time validation sees the pre-event state `false`), even though
the post-event condition state is `true`. -/
theorem decision_uses_prefix_state :
    (∀ (σ : Type) (apl : Apl σ) (es : List AnyEvent) (e : AnyEvent),
      (checkFold apl (es ++ [e])).successes
          = (castDecision apl (checkFold apl es) e).successes
      ∧ (checkFold apl (es ++ [e])).violations
          = (castDecision apl (checkFold apl es) e).violations
      ∧ (checkFold apl (es ++ [e])).abilityState
          = updateAbilities (checkFold apl es).abilityState e
      ∧ (checkFold apl (es ++ [e])).conditionState
          = updateState apl (checkFold apl es).conditionState e)
    ∧ (aplCheck selfApl [.cast 1 ⟨1⟩] ⟨1⟩).successes = []
    ∧ (aplCheck selfApl [.cast 1 ⟨1⟩] ⟨1⟩).violations = []
    ∧ (checkFold selfApl [.cast 1 ⟨1⟩]).conditionState "selfcast" = some true
    ∧ selfCond.validate ((initCheck selfApl).conditionState "selfcast")
        (.cast 1 ⟨1⟩) = false := by
  refine ⟨?_, rfl, rfl, rfl, rfl⟩
  intro σ apl es e
  rw [checkFold_append_one]
  exact ⟨aplStep_successes apl _ e, aplStep_violations apl _ e,
    aplStep_abilityState apl _ e, aplStep_condState apl _ e⟩

theorem condState_foldl_none {σ : Type} (k : String)
    (f : Condition σ → Option σ) :
    ∀ (cnds : List (Condition σ)) (st0 : ConditionState σ),
    (∀ c ∈ cnds, c.key ≠ k) → st0 k = none →
    (cnds.foldl (fun st c => setKey st c.key (f c)) st0) k = none := by
  intro cnds
  induction cnds with
  | nil => intro st0 _ h0; exact h0
  | cons c cs ih =>
    intro st0 h h0
    rw [List.foldl_cons]
    refine ih _ (fun c' hc' => h c' (List.mem_cons_of_mem c hc')) ?_
    unfold setKey
    rw [if_neg]
    · exact h0
    · intro hk
      exact h c (List.mem_cons_self c cs) hk.symm

theorem initState_unregistered {σ : Type} (apl : Apl σ) (k : String)
    (h : ∀ c ∈ apl.conditions, c.key ≠ k) : initState apl k = none :=
  condState_foldl_none k (fun c => some c.init) apl.conditions _ h rfl

theorem updateState_unregistered {σ : Type} (apl : Apl σ) (k : String)
    (old : ConditionState σ) (e : AnyEvent)
    (h : ∀ c ∈ apl.conditions, c.key ≠ k) : updateState apl old e k = none :=
  condState_foldl_none k (fun c => c.update (old c.key) e) apl.conditions _ h rfl

theorem checkFold_unregistered {σ : Type} (apl : Apl σ) (k : String)
    (es : List AnyEvent) (h : ∀ c ∈ apl.conditions, c.key ≠ k) :
    (checkFold apl es).conditionState k = none := by
  have step : ∀ (es' : List AnyEvent) (s : CheckState σ),
      s.conditionState k = none →
      (es'.foldl (aplStep apl) s).conditionState k = none := by
    intro es'
    induction es' with
    | nil => intro s hs; exact hs
    | cons e es'' ih =>
      intro s _
      rw [List.foldl_cons]
      refine ih _ ?_
      rw [aplStep_condState]
      exact updateState_unregistered apl k _ e h
  exact step es (initCheck apl) (initState_unregistered apl k h)

/-- C8: a conditional rule whose condition key is not registered in
`apl.conditions` never fails the engine: the lookup in the condition
state yields the absent value `none` after any processed prefix, that
`none` is what gets passed to the rule's `validate`, and `ruleApplies`
is simply the availability check conjoined with `validate none event`. -/
theorem unregistered_condition_key {σ : Type} (apl : Apl σ)
    (c : Condition σ) (sp : Spell) (es : List AnyEvent) (e : AnyEvent)
    (h : c.key ∉ apl.conditions.map Condition.key) :
    (checkFold apl es).conditionState c.key = none
    ∧ conditionHolds (.conditional sp c) (checkFold apl es) e
        = c.validate none e
    ∧ ruleApplies (.conditional sp c) (checkFold apl es) e
        = (spellAvailable (.conditional sp c) (checkFold apl es)
            && c.validate none e) := by
  have h' : ∀ c' ∈ apl.conditions, c'.key ≠ c.key := by
    intro c' hc' heq
    exact h (List.mem_map.mpr ⟨c', hc', heq⟩)
  have hnone : (checkFold apl es).conditionState c.key = none :=
    checkFold_unregistered apl c.key es h'
  have hch : conditionHolds (.conditional sp c) (checkFold apl es) e
      = c.validate ((checkFold apl es).conditionState c.key) e := rfl
  have hcond : conditionHolds (.conditional sp c) (checkFold apl es) e
      = c.validate none e := by
    rw [hch, hnone]
  refine ⟨hnone, hcond, ?_⟩
  unfold ruleApplies
  rw [hcond]

theorem unregistered_condition_key_witness :
    ((buffPresent ⟨1⟩ 2).key
        ∉ List.map Condition.key (⟨[], [.simple ⟨3⟩]⟩ : Apl Bool).conditions)
    ∧ (checkFold (⟨[], [.simple ⟨3⟩]⟩ : Apl Bool) [.other]).conditionState
        (buffPresent ⟨1⟩ 2).key = none
    ∧ conditionHolds (.conditional ⟨1⟩ (buffPresent ⟨1⟩ 2))
        (checkFold (⟨[], [.simple ⟨3⟩]⟩ : Apl Bool) [.other]) .other
        = (buffPresent ⟨1⟩ 2).validate none .other :=
  ⟨by simp,
    (unregistered_condition_key (⟨[], [.simple ⟨3⟩]⟩ : Apl Bool)
      (buffPresent ⟨1⟩ 2) ⟨1⟩ [.other] .other (by simp)).1,
    (unregistered_condition_key (⟨[], [.simple ⟨3⟩]⟩ : Apl Bool)
      (buffPresent ⟨1⟩ 2) ⟨1⟩ [.other] .other (by simp)).2.1⟩

end AplMetric
